import Mathlib

/-!
Shallow embedding of the workstation-bootstrap installer (Python) in Lean 4.

The embedding models:
* `core/app.py`  — the `App` dataclass (command derivation from the catalog,
  installed-check) and the registered `Neovim` custom installer;
* `core/context.py` — the `EnvironmentContext` record;
* `core/manager.py` — the `Homebrew` (privileged) and `Miniforge` (user-space)
  package managers;
* `install.py` — the orchestrator's per-app resolution loop and manager-mode
  selection.

External effects (subprocess invocations, `shutil.which`, `Path.exists`,
symlink creation) are modelled by an explicit `World` state: success or
failure of each external command is given by an oracle `cmdOk`, and the
observable sequence of issued commands / calls is collected in a trace of
events.  Python exceptions are modelled by an error outcome carrying the
object state, world and trace at the point of the raise, since in Python
mutations performed before a raise persist.
-/

namespace Bootstrap

/-- Filesystem paths, modelled as lists of segments
(`home / 'a' / 'b'` becomes `home ++ ["a", "b"]`). -/
abbrev Path := List String

/-- Python exception kinds that the embedded code can raise. -/
inductive Err where
  | runtimeError
  | valueError
  | calledProcessError
  | attributeError
  | indexError
deriving DecidableEq, Repr

/-- External commands issued via `subprocess.run`, identified up to the
arguments the claims talk about. -/
inductive Cmd where
  | brewInstallScript
  | sourceProfile
  | brewInstall (names : List String) (force : Bool)
  | wgetMiniforge
  | chmodMiniforge
  | bashMiniforge
  | rmMiniforge
  | mambaEnvList
  | mambaCreateEnv
  | mambaInstall (names : List String) (force : Bool)
  | neovimBrewInstall (force : Bool)
  | curlNvim
  | chmodNvim
deriving DecidableEq, Repr

/-- Observable events: an external command, a `_link_binary(app)` call made by
`install_package`, or a created symlink. -/
inductive Ev where
  | cmd (c : Cmd)
  | linkBinaryCall (appName : String)
  | symlink (target source : Path)
deriving DecidableEq, Repr

/-- The ambient world: search-path resolution (`shutil.which`), file existence
(`Path.exists`), the result of the `mamba env list | grep` query, the home
directory (`Path.home()`), and oracles for the success of external commands
and of symlink creation. -/
structure World where
  onPath : String → Bool
  pathExists : Path → Bool
  envListHasApps : Bool
  home : Path
  cmdOk : Cmd → Bool
  symlinkOk : Path → Bool

/-- Outcome of running a piece of embedded Python: either a normal return
(`ok`) or a raised exception (`err`); both carry the object state `σ`, the
world, and the trace of events issued up to that point. -/
inductive PyResult (σ α : Type) where
  | ok (st : σ) (w : World) (tr : List Ev) (ret : α)
  | err (e : Err) (st : σ) (w : World) (tr : List Ev)

namespace PyResult

/-- Sequencing: on a normal return run the continuation and accumulate the
trace; a raised exception propagates. -/
def bind {σ α β : Type} (r : PyResult σ α) (f : σ → World → α → PyResult σ β) :
    PyResult σ β :=
  match r with
  | .ok st w tr a =>
      match f st w a with
      | .ok st' w' tr' b => .ok st' w' (tr ++ tr') b
      | .err e st' w' tr' => .err e st' w' (tr ++ tr')
  | .err e st w tr => .err e st w tr

/-- The object state at the end (normal or exceptional). -/
def state {σ α : Type} : PyResult σ α → σ
  | .ok st _ _ _ => st
  | .err _ st _ _ => st

/-- The world at the end (normal or exceptional). -/
def world {σ α : Type} : PyResult σ α → World
  | .ok _ w _ _ => w
  | .err _ _ w _ => w

/-- The trace of events issued (normal or exceptional). -/
def trace {σ α : Type} : PyResult σ α → List Ev
  | .ok _ _ tr _ => tr
  | .err _ _ _ tr => tr

/-- Whether the run returned normally. -/
def isOk {σ α : Type} : PyResult σ α → Bool
  | .ok _ _ _ _ => true
  | .err _ _ _ _ => false

end PyResult

/-- `core/context.py` `EnvironmentContext`: probed capability record. -/
structure EnvironmentContext where
  has_sudo : Bool
  home : Path
  local_bin : Path
deriving DecidableEq, Repr

/-- Python's `str.lower()`, modelled character-wise (the app names involved
are ASCII). -/
def pyLower (s : String) : String := ⟨s.data.map Char.toLower⟩

/-- `s.replace(" ", "-")` for the single-character pattern the spec uses:
replace every space character with a hyphen. -/
def replaceSpaces (s : String) : String :=
  ⟨s.data.map fun c => if c = ' ' then '-' else c⟩

/-- `core/app.py` `App._get_commands`: the catalog (`commands.json`, a map
from lowercase name to command list) wins; otherwise the fallback is the
single-element list `[name.lower()]`. -/
def getCommands (catalog : String → Option (List String)) (name : String) :
    List String :=
  match catalog (pyLower name) with
  | some cs => cs
  | none => [pyLower name]

/-- The fallback command derivation as the specification document words it:
lowercase the name and replace every space with a hyphen.  Stated separately
so it can be compared with `getCommands` (which embeds the source). -/
def getCommandsSpecFallback (catalog : String → Option (List String))
    (name : String) : List String :=
  match catalog (pyLower name) with
  | some cs => cs
  | none => [replaceSpaces (pyLower name)]

/-- `core/app.py` `App`: a name and its derived command list. -/
structure App where
  name : String
  commands : List String
deriving DecidableEq, Repr

/-- `App(name=...)`: `__post_init__` fills `commands` via `_get_commands`. -/
def App.make (catalog : String → Option (List String)) (name : String) : App :=
  ⟨name, getCommands catalog name⟩

/-- `App.is_installed`: `which(self.commands[0]) is not None`.
Indexing an empty command list raises `IndexError`. -/
def App.is_installed (w : World) (a : App) : Except Err Bool :=
  match a.commands with
  | [] => .error .indexError
  | c :: _ => .ok (w.onPath c)

/-- `core/app.py` `Neovim.install`: prefer `brew install neovim` when `brew`
is resolvable (raising `CalledProcessError` if the checked subprocess fails);
otherwise download the appimage to `~/.local/bin/nvim` (skipping when already
present and not forcing), `mkdir -p` the parent first.  A successful download
makes the binary file exist. -/
def Neovim.install (w : World) (force : Bool) : PyResult Unit Bool :=
  if w.onPath "brew" then
    if w.cmdOk (.neovimBrewInstall force) then
      .ok () w [.cmd (.neovimBrewInstall force)] true
    else .err .calledProcessError () w [.cmd (.neovimBrewInstall force)]
  else
    let binPath := w.home ++ [".local", "bin", "nvim"]
    if w.pathExists binPath && !force then .ok () w [] true
    else
      let w₁ := { w with
        pathExists := fun p =>
          if p = w.home ++ [".local", "bin"] then true else w.pathExists p }
      if !w₁.cmdOk .curlNvim then
        .err .calledProcessError () w₁ [.cmd .curlNvim]
      else
        let w₂ := { w₁ with
          pathExists := fun p => if p = binPath then true else w₁.pathExists p }
        if !w₂.cmdOk .chmodNvim then
          .err .calledProcessError () w₂ [.cmd .curlNvim, .cmd .chmodNvim]
        else .ok () w₂ [.cmd .curlNvim, .cmd .chmodNvim] true

/-- `core/manager.py` `Homebrew`: the privileged manager. -/
structure Homebrew where
  ctx : EnvironmentContext
  name : String
  is_installed : Bool

/-- `Homebrew._install_package_manager`: guard against double install (the
base class raises `RuntimeError`), run the bootstrap script (checked), set
`context.has_sudo = True`, run `source ~/.profile` (checked), set Ready.
The bootstrap script's external effect is modelled as making `brew`
resolvable on the search path. -/
def Homebrew.installPackageManager (m : Homebrew) (w : World) :
    PyResult Homebrew Bool :=
  if m.is_installed then .err .runtimeError m w []
  else if !w.cmdOk .brewInstallScript then
    .err .calledProcessError m w [.cmd .brewInstallScript]
  else
    let w₁ := { w with onPath := fun c => if c = "brew" then true else w.onPath c }
    let m₁ := { m with ctx := { m.ctx with has_sudo := true } }
    if !w₁.cmdOk .sourceProfile then
      .err .calledProcessError m₁ w₁ [.cmd .brewInstallScript, .cmd .sourceProfile]
    else
      .ok { m₁ with is_installed := true } w₁
        [.cmd .brewInstallScript, .cmd .sourceProfile] true

/-- `Homebrew.ensure_available`: Ready immediately when `which('brew')`
succeeds, otherwise bootstrap. -/
def Homebrew.ensure_available (m : Homebrew) (w : World) : PyResult Homebrew Bool :=
  if w.onPath "brew" then .ok { m with is_installed := true } w [] true
  else m.installPackageManager w

/-- `Homebrew.install_package`: `RuntimeError` unless Ready, then one checked
batch `brew install` naming every app (with `--force` when forcing). -/
def Homebrew.install_package (m : Homebrew) (w : World) (packages : List App)
    (force : Bool) : PyResult Homebrew Unit :=
  if !m.is_installed then .err .runtimeError m w []
  else
    let names := packages.map (·.name)
    if w.cmdOk (.brewInstall names force) then
      .ok m w [.cmd (.brewInstall names force)] ()
    else .err .calledProcessError m w [.cmd (.brewInstall names force)]

/-- `Homebrew._link_binary`: warns and does nothing. -/
def Homebrew.link_binary (m : Homebrew) (w : World) (_a : App) :
    PyResult Homebrew Unit :=
  .ok m w [] ()

/-- `core/manager.py` `Miniforge`: the user-space manager. -/
structure Miniforge where
  ctx : EnvironmentContext
  name : String
  is_installed : Bool
  bin_path : Option Path
  apps_env_name : String

/-- `Miniforge(context, name, custom_bin_path)`. -/
def Miniforge.make (ctx : EnvironmentContext) (name : String)
    (custom_bin_path : Option Path) : Miniforge :=
  ⟨ctx, name, false, custom_bin_path, "apps"⟩

/-- `Miniforge._install_package_manager`: guard against double install, then
the checked `wget` / `chmod` / `bash installer -b -p home/miniforge3` / `rm`
sequence; a successful installer run creates `home/miniforge3/bin/mamba`;
finally record `bin_path` and set Ready. -/
def Miniforge.installPackageManager (m : Miniforge) (w : World) :
    PyResult Miniforge Bool :=
  if m.is_installed then .err .runtimeError m w []
  else if !w.cmdOk .wgetMiniforge then
    .err .calledProcessError m w [.cmd .wgetMiniforge]
  else if !w.cmdOk .chmodMiniforge then
    .err .calledProcessError m w [.cmd .wgetMiniforge, .cmd .chmodMiniforge]
  else if !w.cmdOk .bashMiniforge then
    .err .calledProcessError m w
      [.cmd .wgetMiniforge, .cmd .chmodMiniforge, .cmd .bashMiniforge]
  else
    let mambaPath := m.ctx.home ++ ["miniforge3", "bin", "mamba"]
    let w₁ := { w with
      pathExists := fun p => if p = mambaPath then true else w.pathExists p }
    if !w₁.cmdOk .rmMiniforge then
      .err .calledProcessError m w₁
        [.cmd .wgetMiniforge, .cmd .chmodMiniforge, .cmd .bashMiniforge,
         .cmd .rmMiniforge]
    else
      .ok { m with bin_path := some mambaPath, is_installed := true } w₁
        [.cmd .wgetMiniforge, .cmd .chmodMiniforge, .cmd .bashMiniforge,
         .cmd .rmMiniforge] true

/-- The `for dir in possible_dir` probe of `Miniforge.ensure_available`:
first existing candidate is recorded; none existing falls through to the
bootstrap installer. -/
def Miniforge.findInDirs (m : Miniforge) (w : World) :
    List Path → PyResult Miniforge Bool
  | [] => m.installPackageManager w
  | d :: rest =>
      if w.pathExists d then
        .ok { m with bin_path := some d, is_installed := true } w [] true
      else m.findInDirs w rest

/-- `Miniforge.ensure_available`: short-circuit when a supplied `bin_path`
exists; otherwise probe `home/miniforge3/bin/mamba` and
`/opt/miniforge3/bin/mamba`; otherwise bootstrap. -/
def Miniforge.ensure_available (m : Miniforge) (w : World) : PyResult Miniforge Bool :=
  if (match m.bin_path with | some p => w.pathExists p | none => false) then
    .ok { m with is_installed := true } w [] true
  else
    m.findInDirs w
      [m.ctx.home ++ ["miniforge3", "bin", "mamba"],
       ["opt", "miniforge3", "bin", "mamba"]]

/-- `Miniforge._check_env_exists`: `RuntimeError` unless Ready; then an
unchecked `mamba env list | grep` query whose result the world supplies. -/
def Miniforge.check_env_exists (m : Miniforge) (w : World) : PyResult Miniforge Bool :=
  if !m.is_installed then .err .runtimeError m w []
  else .ok m w [.cmd .mambaEnvList] w.envListHasApps

/-- `Miniforge._create_env`: `RuntimeError` unless Ready; then a checked
`mamba create -n apps -y`, whose success makes the environment exist. -/
def Miniforge.create_env (m : Miniforge) (w : World) : PyResult Miniforge Unit :=
  if !m.is_installed then .err .runtimeError m w []
  else if w.cmdOk .mambaCreateEnv then
    .ok m { w with envListHasApps := true } [.cmd .mambaCreateEnv] ()
  else .err .calledProcessError m w [.cmd .mambaCreateEnv]

/-- The `for bin_name in app.commands` loop of `Miniforge._link_binary`.
When the target link already exists, or the source binary is missing, the
source executes `return`, ending the loop for the remaining command names.
Dereferencing `bin_path.parent` with `bin_path = None` raises
`AttributeError`.  A symlink-creation failure is caught and the loop
continues with the next binary. -/
def Miniforge.linkBinaryAux (m : Miniforge) (w : World) :
    List String → PyResult Miniforge Unit
  | [] => .ok m w [] ()
  | binName :: rest =>
      let linkPath := m.ctx.local_bin ++ [binName]
      if w.pathExists linkPath then .ok m w [] ()
      else
        match m.bin_path with
        | none => .err .attributeError m w []
        | some bp =>
            let sourcePath :=
              bp.dropLast.dropLast ++ ["envs", m.apps_env_name, "bin", binName]
            if !w.pathExists sourcePath then .ok m w [] ()
            else
              if w.symlinkOk linkPath then
                let w₁ := { w with
                  pathExists := fun p => if p = linkPath then true else w.pathExists p }
                (PyResult.ok m w₁ [.symlink linkPath sourcePath] ()).bind
                  fun m₁ w₂ _ => m₁.linkBinaryAux w₂ rest
              else m.linkBinaryAux w rest

/-- `Miniforge._link_binary(app)`. -/
def Miniforge.link_binary (m : Miniforge) (w : World) (a : App) :
    PyResult Miniforge Unit :=
  m.linkBinaryAux w a.commands

/-- The per-binary loop as the specification document words it: an existing
target link, or a missing source binary, skips ONLY that binary and the loop
continues with the remaining command names.  Stated separately so it can be
compared with `Miniforge.linkBinaryAux` (which embeds the source). -/
def Miniforge.linkBinarySpecAux (m : Miniforge) (w : World) :
    List String → PyResult Miniforge Unit
  | [] => .ok m w [] ()
  | binName :: rest =>
      let linkPath := m.ctx.local_bin ++ [binName]
      if w.pathExists linkPath then m.linkBinarySpecAux w rest
      else
        match m.bin_path with
        | none => .err .attributeError m w []
        | some bp =>
            let sourcePath :=
              bp.dropLast.dropLast ++ ["envs", m.apps_env_name, "bin", binName]
            if !w.pathExists sourcePath then m.linkBinarySpecAux w rest
            else
              if w.symlinkOk linkPath then
                let w₁ := { w with
                  pathExists := fun p => if p = linkPath then true else w.pathExists p }
                (PyResult.ok m w₁ [.symlink linkPath sourcePath] ()).bind
                  fun m₁ w₂ _ => m₁.linkBinarySpecAux w₂ rest
              else m.linkBinarySpecAux w rest

/-- `Miniforge._link_binary` as the specification words it (see
`Miniforge.linkBinarySpecAux`). -/
def Miniforge.link_binary_spec (m : Miniforge) (w : World) (a : App) :
    PyResult Miniforge Unit :=
  m.linkBinarySpecAux w a.commands

/-- The `for app in packages_list: self._link_binary(app)` loop at the end of
`Miniforge.install_package`; each call is recorded as a `linkBinaryCall`
event. -/
def Miniforge.linkAll (m : Miniforge) (w : World) :
    List App → PyResult Miniforge Unit
  | [] => .ok m w [] ()
  | a :: rest =>
      (PyResult.ok m w [.linkBinaryCall a.name] ()).bind fun m₁ w₁ _ =>
        (m₁.link_binary w₁ a).bind fun m₂ w₂ _ => m₂.linkAll w₂ rest

/-- `Miniforge.install_package`: `RuntimeError` unless Ready; query whether
the isolated environment exists and create it if absent; one checked batch
`mamba install -n apps` naming every app; then link every app's binaries. -/
def Miniforge.install_package (m : Miniforge) (w : World) (packages : List App)
    (force : Bool) : PyResult Miniforge Unit :=
  if !m.is_installed then .err .runtimeError m w []
  else
    (m.check_env_exists w).bind fun m₁ w₁ envEx =>
      (if envEx then PyResult.ok m₁ w₁ [] () else m₁.create_env w₁).bind
        fun m₂ w₂ _ =>
          let names := packages.map (·.name)
          (if w₂.cmdOk (.mambaInstall names force) then
             PyResult.ok m₂ w₂ [.cmd (.mambaInstall names force)] ()
           else
             .err .calledProcessError m₂ w₂
               [.cmd (.mambaInstall names force)]).bind
            fun m₃ w₃ _ => m₃.linkAll w₃ packages

/-- `install.py` `choose_mode`: privileged (`brew`) with sudo, user-space
(`mamba`) without. -/
def choose_mode (ctx : EnvironmentContext) : String :=
  if ctx.has_sudo then "brew" else "mamba"

/-- `install.py` `main`: `mode = choose_mode(env_ctx) if args.mode == 'auto'
else args.mode`. -/
def selectMode (argsMode : String) (ctx : EnvironmentContext) : String :=
  if argsMode = "auto" then choose_mode ctx else argsMode

/-- An app registry (`APP_REGISTRY`): maps a lowercase name to a registered
entry; the entry optionally carries a custom install method (`install.py`
checks `hasattr(app, 'install')` and dispatches dynamically). -/
abbrev Registry := String → Option (Option (World → Bool → PyResult Unit Bool))

/-- The repository's actual registry: only `"neovim"` is registered, with
`Neovim.install` as its custom install method. -/
def appRegistry : Registry :=
  fun s => if s = "neovim" then some (some Neovim.install) else none

/-- The body of the `try:` block of `main`'s per-app resolution: registry
lookup (a miss raises `ValueError`), installed-check with skip, direct
enqueue when the registered app has no custom install method, otherwise the
custom install with fallback-enqueue on a `False` return.  The state is the
queue of apps destined for manager installation. -/
def resolveAppTry (registry : Registry)
    (catalog : String → Option (List String)) (force : Bool)
    (w : World) (queue : List App) (appName : String) :
    PyResult (List App) Unit :=
  match registry (pyLower appName) with
  | none => .err .valueError queue w []
  | some instMethod =>
      let app := App.make catalog appName
      match app.is_installed w with
      | .error e => .err e queue w []
      | .ok installed =>
          if installed && !force then .ok queue w [] ()
          else
            match instMethod with
            | none => .ok (queue ++ [app]) w [] ()
            | some instFn =>
                match instFn w force with
                | .ok () w' tr true => .ok queue w' tr ()
                | .ok () w' tr false => .ok (queue ++ [app]) w' tr ()
                | .err e () w' tr => .err e queue w' tr

/-- One iteration of `main`'s resolution loop: the `try:` body together with
the `except ValueError:` handler (generic fallback App, installed-check with
skip, enqueue).  Exceptions other than `ValueError` propagate. -/
def resolveApp (registry : Registry)
    (catalog : String → Option (List String)) (force : Bool)
    (w : World) (queue : List App) (appName : String) :
    PyResult (List App) Unit :=
  match resolveAppTry registry catalog force w queue appName with
  | .err .valueError q w' tr =>
      let app := App.make catalog appName
      (match app.is_installed w' with
       | .error e => .err e q w' tr
       | .ok installed =>
           if installed && !force then .ok q w' tr ()
           else .ok (q ++ [app]) w' tr ())
  | r => r

/-- `main`'s whole resolution loop over the requested app names. -/
def resolveAll (registry : Registry)
    (catalog : String → Option (List String)) (force : Bool)
    (w : World) (queue : List App) : List String → PyResult (List App) Unit
  | [] => .ok queue w [] ()
  | n :: rest =>
      (resolveApp registry catalog force w queue n).bind fun q w' _ =>
        resolveAll registry catalog force w' q rest

/-- A concrete world used to instantiate theorems on closed inputs. -/
def worldBase : World where
  onPath := fun _ => false
  pathExists := fun _ => false
  envListHasApps := false
  home := ["home", "user"]
  cmdOk := fun _ => true
  symlinkOk := fun _ => true

/-- A stub custom install method that reports failure by returning `False`
(used to exercise the orchestrator's fallback branch on a closed input). -/
def instFnStub : World → Bool → PyResult Unit Bool :=
  fun w _ => .ok () w [] false

/-- A registry holding one registered app `"x"` whose custom install method
is `instFnStub`. -/
def regStub : Registry :=
  fun s => if s = "x" then some (some instFnStub) else none

/-- A world where only `brew` is resolvable and the `brew install neovim`
subprocess fails. -/
def wNeoFail : World :=
  { worldBase with
    onPath := fun c => c == "brew"
    cmdOk := fun c => decide (c ≠ Cmd.neovimBrewInstall false) }

/-- A concrete probed context without elevated access. -/
def ctxBase : EnvironmentContext :=
  ⟨false, ["home", "user"], ["home", "user", ".local", "bin"]⟩

/-- A NotReady privileged manager instance. -/
def hbNotReady : Homebrew := ⟨ctxBase, "brew", false⟩

/-- A NotReady user-space manager instance without a custom binary path. -/
def mfNotReady : Miniforge := Miniforge.make ctxBase "mamba" none

/-- A NotReady user-space manager instance constructed with a custom binary
path. -/
def mfNotReadyCustom : Miniforge :=
  Miniforge.make ctxBase "mamba" (some ["custom", "bin", "mamba"])

/-- A world where the link target `local_bin/a` already exists. -/
def wLinkExists : World :=
  { worldBase with pathExists := fun p => p == ctxBase.local_bin ++ ["a"] }

/-- A world where only `brew` is resolvable on the search path. -/
def wBrewOnPath : World := { worldBase with onPath := fun c => c == "brew" }

/-- The Ready privileged manager instance that `ensure_available` produces
from `hbNotReady` in `wBrewOnPath`. -/
def hbReady : Homebrew := ⟨ctxBase, "brew", true⟩

/-- A world where only the custom mamba binary path exists. -/
def wCustomMamba : World :=
  { worldBase with pathExists := fun p => p == ["custom", "bin", "mamba"] }

/-- The Ready user-space manager instance that `ensure_available` produces
from `mfNotReadyCustom` in `wCustomMamba`. -/
def mfReadyCustom : Miniforge :=
  ⟨ctxBase, "mamba", true, some ["custom", "bin", "mamba"], "apps"⟩

/-- Projection used to observe the `_link_binary(app)` calls in a trace. -/
def evLinkCallName : Ev → Option String
  | .linkBinaryCall n => some n
  | _ => none

/-- Whether an event is an external command. -/
def Ev.isCmd : Ev → Bool
  | .cmd _ => true
  | _ => false

/-- The link phase of `Miniforge.install_package`: the `_link_binary` loop
run in the world left behind by the environment-handling phase (the
environment exists afterwards either way). -/
def midLink (m : Miniforge) (w : World) (pkgs : List App) :
    PyResult Miniforge Unit :=
  m.linkAll (if w.envListHasApps then w else { w with envListHasApps := true })
    pkgs

/-- A one-element app batch used to instantiate theorems on closed inputs. -/
def pkgsHtop : List App := [App.make (fun _ => none) "htop"]

/-- A world exhibiting the early-`return` behaviour of `_link_binary`: the
link target for command `a` already exists, and the source binary for
command `b` exists in the isolated environment while its link target does
not. -/
def wC2 : World :=
  { worldBase with
    pathExists := fun p =>
      p == ctxBase.local_bin ++ ["a"] ||
      p == ["custom", "envs", "apps", "bin", "b"] }

/-! ## Theorems -/

/-- Pushing `PyResult.state` through `PyResult.bind`. -/
theorem PyResult.bind_state_eq {σ α β : Type} (r : PyResult σ α)
    (f : σ → World → α → PyResult σ β) :
    (r.bind f).state =
      match r with
      | .ok st w _ a => (f st w a).state
      | .err _ st _ _ => st := by
  cases r with
  | ok st w tr a => cases h : f st w a <;> simp [PyResult.bind, h, PyResult.state]
  | err e st w tr => simp [PyResult.bind, PyResult.state]

/-- `PyResult.bind` preserves a state that both its pieces preserve. -/
theorem PyResult.bind_state_pres {σ α β : Type} {m : σ} (r : PyResult σ α)
    (f : σ → World → α → PyResult σ β) (hr : r.state = m)
    (hf : ∀ w a, (f m w a).state = m) : (r.bind f).state = m := by
  cases r with
  | err e st w tr => exact hr
  | ok st w tr a =>
      have hst : st = m := hr
      subst hst
      have h2 := hf w a
      cases h : f st w a <;> rw [h] at h2 <;>
        simpa [PyResult.bind, PyResult.state, h] using h2

/-- `isOk` of a bind whose first piece returned normally. -/
theorem PyResult.isOk_bind_ok {σ α β : Type} (st : σ) (w : World)
    (tr : List Ev) (a : α) (f : σ → World → α → PyResult σ β) :
    ((PyResult.ok st w tr a).bind f).isOk = (f st w a).isOk := by
  cases h : f st w a <;> simp [PyResult.bind, h, PyResult.isOk]

/-- `Miniforge._link_binary`'s loop never modifies the manager state. -/
theorem Miniforge.linkBinaryAux_state (m : Miniforge) (cmds : List String) :
    ∀ w : World, (m.linkBinaryAux w cmds).state = m := by
  induction cmds with
  | nil => intro w; rfl
  | cons c rest ih =>
      intro w
      unfold Miniforge.linkBinaryAux
      dsimp only
      repeat' split
      all_goals first
        | rfl
        | exact ih _
        | exact PyResult.bind_state_pres _ _ rfl (fun w2 _ => ih w2)

/-- `Miniforge._link_binary` never modifies the manager state. -/
theorem Miniforge.link_binary_state (m : Miniforge) (w : World) (a : App) :
    (m.link_binary w a).state = m :=
  m.linkBinaryAux_state a.commands w

/-- The linking loop of `Miniforge.install_package` never modifies the
manager state. -/
theorem Miniforge.linkAll_state (m : Miniforge) (apps : List App) :
    ∀ w : World, (m.linkAll w apps).state = m := by
  induction apps with
  | nil => intro w; rfl
  | cons a rest ih =>
      intro w
      unfold Miniforge.linkAll
      apply PyResult.bind_state_pres _ _ rfl
      intro w1 _
      apply PyResult.bind_state_pres _ _ (m.link_binary_state w1 a)
      intro w2 _
      exact ih w2

/-- `Miniforge._check_env_exists` never modifies the manager state. -/
theorem Miniforge.check_env_exists_state (m : Miniforge) (w : World) :
    (m.check_env_exists w).state = m := by
  unfold Miniforge.check_env_exists
  split <;> rfl

/-- `Miniforge._create_env` never modifies the manager state. -/
theorem Miniforge.create_env_state (m : Miniforge) (w : World) :
    (m.create_env w).state = m := by
  unfold Miniforge.create_env
  split
  · rfl
  · split <;> rfl

/-- `Miniforge.install_package` never modifies the manager state. -/
theorem Miniforge.install_package_state (m : Miniforge) (w : World)
    (pkgs : List App) (f : Bool) : (m.install_package w pkgs f).state = m := by
  unfold Miniforge.install_package
  split
  · rfl
  · apply PyResult.bind_state_pres _ _ (m.check_env_exists_state w)
    intro w1 envEx
    apply PyResult.bind_state_pres
    · cases envEx
      · exact m.create_env_state w1
      · rfl
    · intro w2 _
      apply PyResult.bind_state_pres
      · dsimp only
        split <;> rfl
      · intro w3 _
        exact m.linkAll_state pkgs w3

/-- `Miniforge._install_package_manager` never modifies the context. -/
theorem Miniforge.installPackageManager_ctx (m : Miniforge) (w : World) :
    ((m.installPackageManager w).state).ctx = m.ctx := by
  unfold Miniforge.installPackageManager
  dsimp only
  repeat' split
  all_goals rfl

/-- The standard-directory probe of `Miniforge.ensure_available` never
modifies the context. -/
theorem Miniforge.findInDirs_ctx (m : Miniforge) :
    ∀ (ds : List Path) (w : World), ((m.findInDirs w ds).state).ctx = m.ctx := by
  intro ds
  induction ds with
  | nil => intro w; exact m.installPackageManager_ctx w
  | cons d rest ih =>
      intro w
      unfold Miniforge.findInDirs
      split
      · rfl
      · exact ih w

/-- `Miniforge.ensure_available` never modifies the context. -/
theorem Miniforge.ensure_available_ctx (m : Miniforge) (w : World) :
    ((m.ensure_available w).state).ctx = m.ctx := by
  unfold Miniforge.ensure_available
  split
  · rfl
  · exact m.findInDirs_ctx _ w

/-- C4 (amended): `homeDir` and `userLocalBinDir` are never modified by any
manager operation, and `hasElevatedAccess` is modified by exactly one
operation — the privileged manager's bootstrap installer, which sets it to
`true`; every user-space manager operation, and the privileged manager's
`install_package` and `_link_binary`, leave the whole context unchanged. -/
theorem c4_context_frame :
    (∀ (m : Homebrew) (w : World) (pkgs : List App) (f : Bool),
      ((Homebrew.install_package m w pkgs f).state).ctx = m.ctx) ∧
    (∀ (m : Homebrew) (w : World) (a : App),
      ((Homebrew.link_binary m w a).state).ctx = m.ctx) ∧
    (∀ (m : Homebrew) (w : World),
      ((Homebrew.installPackageManager m w).state).ctx = m.ctx ∨
      ((Homebrew.installPackageManager m w).state).ctx
        = { m.ctx with has_sudo := true }) ∧
    (∀ (m : Homebrew) (w : World),
      ((Homebrew.ensure_available m w).state).ctx.home = m.ctx.home ∧
      ((Homebrew.ensure_available m w).state).ctx.local_bin = m.ctx.local_bin) ∧
    (∀ (m : Miniforge) (w : World),
      ((Miniforge.ensure_available m w).state).ctx = m.ctx) ∧
    (∀ (m : Miniforge) (w : World),
      ((Miniforge.check_env_exists m w).state).ctx = m.ctx) ∧
    (∀ (m : Miniforge) (w : World),
      ((Miniforge.create_env m w).state).ctx = m.ctx) ∧
    (∀ (m : Miniforge) (w : World) (a : App),
      ((Miniforge.link_binary m w a).state).ctx = m.ctx) ∧
    (∀ (m : Miniforge) (w : World) (pkgs : List App) (f : Bool),
      ((Miniforge.install_package m w pkgs f).state).ctx = m.ctx) := by
  refine ⟨?_, ?_, ?_, ?_, ?_, ?_, ?_, ?_, ?_⟩
  · intro m w pkgs f
    unfold Homebrew.install_package
    dsimp only
    repeat' split
    all_goals rfl
  · intro m w a; rfl
  · intro m w
    unfold Homebrew.installPackageManager
    dsimp only
    repeat' split
    all_goals first | exact Or.inl rfl | exact Or.inr rfl
  · intro m w
    unfold Homebrew.ensure_available Homebrew.installPackageManager
    dsimp only
    repeat' split
    all_goals exact ⟨rfl, rfl⟩
  · intro m w; exact m.ensure_available_ctx w
  · intro m w; rw [m.check_env_exists_state w]
  · intro m w; rw [m.create_env_state w]
  · intro m w a; rw [m.link_binary_state w a]
  · intro m w pkgs f; rw [m.install_package_state w pkgs f]

/-- C4 counterexample: the `EnvironmentContext` is not immutable — for a
NotReady privileged manager in a world where `brew` is not resolvable,
`ensure_available` runs the bootstrap installer, which sets the context's
`has_sudo` field from `false` to `true`. -/
theorem c4_counterexample :
    hbNotReady.ctx.has_sudo = false ∧
    ((Homebrew.ensure_available hbNotReady worldBase).state).ctx.has_sudo
      = true :=
  ⟨rfl, rfl⟩

/-- C8 (amended): for both manager variants, calling `install_package` while
NotReady raises `RuntimeError` with no command issued and the manager state
and world unchanged; `_link_binary`, however, performs no readiness check
and does not necessarily raise while NotReady. -/
theorem c8_notready_guard :
    (∀ (m : Homebrew) (w : World) (pkgs : List App) (f : Bool),
      m.is_installed = false →
      Homebrew.install_package m w pkgs f = .err .runtimeError m w []) ∧
    (∀ (m : Miniforge) (w : World) (pkgs : List App) (f : Bool),
      m.is_installed = false →
      Miniforge.install_package m w pkgs f = .err .runtimeError m w []) := by
  constructor
  · intro m w pkgs f h
    simp [Homebrew.install_package, h]
  · intro m w pkgs f h
    simp [Miniforge.install_package, h]

theorem c8_notready_guard_witness :
    hbNotReady.is_installed = false ∧
    Homebrew.install_package hbNotReady worldBase [App.make (fun _ => none) "htop"]
      false = .err .runtimeError hbNotReady worldBase [] ∧
    mfNotReady.is_installed = false ∧
    Miniforge.install_package mfNotReady worldBase [App.make (fun _ => none) "htop"]
      false = .err .runtimeError mfNotReady worldBase [] :=
  ⟨rfl,
   c8_notready_guard.1 hbNotReady worldBase [App.make (fun _ => none) "htop"]
     false rfl,
   rfl,
   c8_notready_guard.2 mfNotReady worldBase [App.make (fun _ => none) "htop"]
     false rfl⟩

/-- C8 counterexample: `Miniforge._link_binary` has no NotReady guard — on a
NotReady instance constructed with a custom binary path, linking an app
whose single command's target link already exists returns normally (no
exception at all). -/
theorem c8_counterexample :
    mfNotReadyCustom.is_installed = false ∧
    Miniforge.link_binary mfNotReadyCustom wLinkExists ⟨"a", ["a"]⟩ =
      .ok mfNotReadyCustom wLinkExists [] () :=
  ⟨rfl, rfl⟩

/-- C1 (amended): for an app name in the catalog the catalog's command list
is used; for a name not in the catalog the derived command list is
`[lowercase(name)]` — the lowercase name verbatim, with no replacement of
spaces by hyphens. -/
theorem c1_command_derivation (catalog : String → Option (List String))
    (name : String) :
    (∀ cs, catalog (pyLower name) = some cs → getCommands catalog name = cs) ∧
    (catalog (pyLower name) = none → getCommands catalog name = [pyLower name]) := by
  constructor
  · intro cs h; simp [getCommands, h]
  · intro h; simp [getCommands, h]

theorem c1_command_derivation_witness :
    ((fun s => if s = "neovim" then some ["nvim"] else none) (pyLower "Neovim")
        = some ["nvim"] ∧
      getCommands (fun s => if s = "neovim" then some ["nvim"] else none) "Neovim"
        = ["nvim"]) ∧
    ((fun _ => (none : Option (List String))) (pyLower "Htop") = none ∧
      getCommands (fun _ => none) "Htop" = ["htop"]) :=
  ⟨⟨by decide,
    (c1_command_derivation (fun s => if s = "neovim" then some ["nvim"] else none)
        "Neovim").1 ["nvim"] (by decide)⟩,
   ⟨rfl, (c1_command_derivation (fun _ => none) "Htop").2 rfl⟩⟩

/-- C1 counterexample: for the unregistered name `"A B"` the source derives
`["a b"]`, not `["a-b"]` as the lowercase-and-hyphenate description claims —
`App._get_commands` performs no space-to-hyphen replacement. -/
theorem c1_counterexample :
    getCommands (fun _ => none) "A B" = ["a b"] ∧
    replaceSpaces (pyLower "A B") = "a-b" ∧
    getCommands (fun _ => none) "A B" ≠
      getCommandsSpecFallback (fun _ => none) "A B" := by
  decide

/-- C6: with mode `auto` the privileged manager (`brew`) is selected exactly
when the probed context has elevated access, and the user-space manager
(`mamba`) otherwise; an explicit mode is selected regardless of the probe. -/
theorem c6_manager_selection :
    (∀ ctx : EnvironmentContext,
      (selectMode "auto" ctx = "brew" ↔ ctx.has_sudo = true) ∧
      (selectMode "auto" ctx = "mamba" ↔ ctx.has_sudo = false)) ∧
    (∀ (mode : String) (ctx : EnvironmentContext),
      mode ≠ "auto" → selectMode mode ctx = mode) := by
  constructor
  · intro ctx
    cases h : ctx.has_sudo <;> simp [selectMode, choose_mode, h]
  · intro mode ctx h
    simp [selectMode, h]

theorem c6_manager_selection_witness :
    ("mamba" : String) ≠ "auto" ∧
    selectMode "mamba" ⟨true, ["home", "user"], ["home", "user", ".local", "bin"]⟩
      = "mamba" :=
  ⟨by decide,
   c6_manager_selection.2 "mamba"
     ⟨true, ["home", "user"], ["home", "user", ".local", "bin"]⟩ (by decide)⟩

/-- C9: `App.is_installed` returns true exactly when the first entry of the
command list resolves on the search path, and an app satisfying it is
skipped by the orchestrator's per-app resolution when the force-reinstall
override is not set (queue, world and trace unchanged). -/
theorem c9_installed_gate :
    (∀ (w : World) (a : App) (c : String) (rest : List String),
      a.commands = c :: rest →
      a.is_installed w = Except.ok (w.onPath c) ∧
      (a.is_installed w = Except.ok true ↔ w.onPath c = true)) ∧
    (∀ (registry : Registry) (catalog : String → Option (List String))
        (w : World) (queue : List App) (name : String),
      (App.make catalog name).is_installed w = Except.ok true →
      resolveApp registry catalog false w queue name = .ok queue w [] ()) := by
  constructor
  · intro w a c rest h
    simp [App.is_installed, h]
  · intro registry catalog w queue name hinst
    cases hr : registry (pyLower name) with
    | none =>
        simp [resolveApp, resolveAppTry, hr, hinst]
    | some instMethod =>
        simp [resolveApp, resolveAppTry, hr, hinst]

theorem c9_installed_gate_witness :
    (App.make (fun _ => none) "htop").commands = "htop" :: [] ∧
    ({ worldBase with onPath := fun c => c == "htop" } : World).onPath "htop"
      = true ∧
    (App.make (fun _ => none) "htop").is_installed
      { worldBase with onPath := fun c => c == "htop" } = Except.ok true ∧
    resolveApp appRegistry (fun _ => none) false
      { worldBase with onPath := fun c => c == "htop" } [] "htop" =
      .ok [] { worldBase with onPath := fun c => c == "htop" } [] () :=
  ⟨rfl, rfl,
   (c9_installed_gate.1 { worldBase with onPath := fun c => c == "htop" }
      (App.make (fun _ => none) "htop") "htop" [] rfl).2.mpr rfl,
   c9_installed_gate.2 appRegistry (fun _ => none)
     { worldBase with onPath := fun c => c == "htop" } [] "htop" rfl⟩

/-- C5 (amended): a custom install that reports failure by returning `False`
is recoverable — the orchestrator enqueues the app for manager installation
and continues resolving the remaining apps; but a custom install that fails
by raising an exception other than `ValueError` (the registered Neovim
installer signals subprocess failure this way, via `check=True`) propagates
and terminates the resolution loop. -/
theorem c5_custom_install_fallback (registry : Registry)
    (catalog : String → Option (List String)) (force : Bool) (w w' : World)
    (queue : List App) (name : String) (rest : List String) (tr : List Ev)
    (instFn : World → Bool → PyResult Unit Bool) (b : Bool)
    (hreg : registry (pyLower name) = some (some instFn))
    (hinst : (App.make catalog name).is_installed w = Except.ok b)
    (hfb : b = false ∨ force = true) :
    (instFn w force = .ok () w' tr false →
      resolveAll registry catalog force w queue (name :: rest) =
        (PyResult.ok (queue ++ [App.make catalog name]) w' tr ()).bind
          (fun q w₂ _ => resolveAll registry catalog force w₂ q rest)) ∧
    (∀ e : Err, e ≠ .valueError → instFn w force = .err e () w' tr →
      resolveAll registry catalog force w queue (name :: rest) =
        .err e queue w' tr) := by
  have hguard : (b && !force) = false := by
    rcases hfb with rfl | rfl <;> simp
  constructor
  · intro hci
    have htry : resolveAppTry registry catalog force w queue name =
        .ok (queue ++ [App.make catalog name]) w' tr () := by
      simp [resolveAppTry, hreg, hinst, hguard, hci]
    have happ : resolveApp registry catalog force w queue name =
        .ok (queue ++ [App.make catalog name]) w' tr () := by
      simp [resolveApp, htry]
    simp [resolveAll, happ]
  · intro e he hci
    have htry : resolveAppTry registry catalog force w queue name =
        .err e queue w' tr := by
      simp [resolveAppTry, hreg, hinst, hguard, hci]
    have happ : resolveApp registry catalog force w queue name =
        .err e queue w' tr := by
      cases e <;> simp_all [resolveApp]
    simp [resolveAll, happ, PyResult.bind]

theorem c5_custom_install_fallback_witness :
    regStub (pyLower "x") = some (some instFnStub) ∧
    (App.make (fun _ => none) "x").is_installed worldBase = Except.ok false ∧
    instFnStub worldBase false = .ok () worldBase [] false ∧
    resolveAll regStub (fun _ => none) false worldBase [] ["x", "y"] =
      (PyResult.ok ([] ++ [App.make (fun _ => none) "x"]) worldBase [] ()).bind
        (fun q w₂ _ => resolveAll regStub (fun _ => none) false w₂ q ["y"]) :=
  ⟨rfl, rfl, rfl,
   (c5_custom_install_fallback regStub (fun _ => none) false worldBase worldBase
      [] "x" ["y"] [] instFnStub false rfl rfl (Or.inl rfl)).1 rfl⟩

/-- C5 counterexample: with the repository's actual registry, resolving
`"neovim"` in a world where `brew` is resolvable but `brew install neovim`
fails makes `Neovim.install` raise `CalledProcessError` (`check=True`),
which `main` does not catch — the resolution loop terminates instead of
falling back to manager installation. -/
theorem c5_counterexample :
    resolveAll appRegistry (fun _ => none) false wNeoFail [] ["neovim"] =
      .err .calledProcessError [] wNeoFail [.cmd (.neovimBrewInstall false)] := by
  rfl

/-- Trace of a bind whose first piece returned normally. -/
theorem PyResult.trace_bind_ok {σ α β : Type} (st : σ) (w : World)
    (tr : List Ev) (a : α) (f : σ → World → α → PyResult σ β) :
    ((PyResult.ok st w tr a).bind f).trace = tr ++ (f st w a).trace := by
  cases h : f st w a <;> simp [PyResult.bind, h, PyResult.trace]

/-- World of a bind whose first piece returned normally. -/
theorem PyResult.world_bind_ok {σ α β : Type} (st : σ) (w : World)
    (tr : List Ev) (a : α) (f : σ → World → α → PyResult σ β) :
    ((PyResult.ok st w tr a).bind f).world = (f st w a).world := by
  cases h : f st w a <;> simp [PyResult.bind, h, PyResult.world]

/-- With a recorded binary path, the `_link_binary` loop returns normally. -/
theorem Miniforge.linkBinaryAux_isOk (m : Miniforge) (bp : Path)
    (hbp : m.bin_path = some bp) (cmds : List String) :
    ∀ w : World, (m.linkBinaryAux w cmds).isOk = true := by
  induction cmds with
  | nil => intro w; rfl
  | cons c rest ih =>
      intro w
      unfold Miniforge.linkBinaryAux
      rw [hbp]
      dsimp only
      split
      · rfl
      · split
        · rfl
        · split
          · rw [PyResult.isOk_bind_ok]
            exact ih _
          · exact ih w

/-- With a recorded binary path, the `_link_binary` loop emits only symlink
events (no external command, no `_link_binary(app)` marker) and leaves the
environment-existence flag of the world unchanged. -/
theorem Miniforge.linkBinaryAux_props (m : Miniforge) (bp : Path)
    (hbp : m.bin_path = some bp) (cmds : List String) :
    ∀ w : World,
      (∀ e ∈ (m.linkBinaryAux w cmds).trace,
        Ev.isCmd e = false ∧ evLinkCallName e = none) ∧
      (m.linkBinaryAux w cmds).world.envListHasApps = w.envListHasApps := by
  induction cmds with
  | nil =>
      intro w
      exact ⟨fun e he => absurd he (List.not_mem_nil e), rfl⟩
  | cons c rest ih =>
      intro w
      unfold Miniforge.linkBinaryAux
      rw [hbp]
      dsimp only
      split
      · exact ⟨fun e he => absurd he (List.not_mem_nil e), rfl⟩
      · split
        · exact ⟨fun e he => absurd he (List.not_mem_nil e), rfl⟩
        · split
          · constructor
            · intro e he
              rw [PyResult.trace_bind_ok] at he
              rcases List.mem_append.mp he with h1 | h1
              · rw [List.mem_singleton] at h1
                subst h1
                exact ⟨rfl, rfl⟩
              · exact (ih _).1 e h1
            · rw [PyResult.world_bind_ok]
              exact (ih _).2
          · exact ih w

/-- Properties of one `_link_binary(app)` call with a recorded binary path:
it returns normally, emits only symlink events, and leaves the
environment-existence flag unchanged. -/
theorem Miniforge.link_binary_props (m : Miniforge) (bp : Path)
    (hbp : m.bin_path = some bp) (a : App) (w : World) :
    (m.link_binary w a).isOk = true ∧
    (∀ e ∈ (m.link_binary w a).trace,
      Ev.isCmd e = false ∧ evLinkCallName e = none) ∧
    (m.link_binary w a).world.envListHasApps = w.envListHasApps :=
  ⟨m.linkBinaryAux_isOk bp hbp a.commands w,
   (m.linkBinaryAux_props bp hbp a.commands w).1,
   (m.linkBinaryAux_props bp hbp a.commands w).2⟩

/-- Properties of the whole link phase with a recorded binary path: it
returns normally, its trace carries a `_link_binary(app)` marker for every
app in list order and no external command, and the environment-existence
flag is unchanged. -/
theorem Miniforge.linkAll_props (m : Miniforge) (bp : Path)
    (hbp : m.bin_path = some bp) (pkgs : List App) :
    ∀ w : World,
      (m.linkAll w pkgs).isOk = true ∧
      ((m.linkAll w pkgs).trace).filterMap evLinkCallName
        = pkgs.map (fun a => a.name) ∧
      (∀ e ∈ (m.linkAll w pkgs).trace, Ev.isCmd e = false) ∧
      (m.linkAll w pkgs).world.envListHasApps = w.envListHasApps := by
  induction pkgs with
  | nil =>
      intro w
      exact ⟨rfl, rfl, fun e he => absurd he (List.not_mem_nil e), rfl⟩
  | cons a rest ih =>
      intro w
      unfold Miniforge.linkAll
      cases h2 : m.link_binary w a with
      | err e2 st2 w2 tr2 =>
          exfalso
          have h3 := (m.link_binary_props bp hbp a w).1
          rw [h2] at h3
          exact absurd h3 (by simp [PyResult.isOk])
      | ok st2 w2 tr2 r2 =>
          have hst2 : m = st2 := by
            have h3 := m.link_binary_state w a
            rw [h2] at h3
            exact h3.symm
          subst hst2
          have hlb := Miniforge.link_binary_props m bp hbp a w
          rw [h2] at hlb
          obtain ⟨-, htr2, hw2⟩ := hlb
          simp only [PyResult.trace, PyResult.world] at htr2 hw2
          obtain ⟨hokr, hfmr, hcmdr, hwr⟩ := ih w2
          cases hl : m.linkAll w2 rest with
          | err e3 st3 w3 tr3 =>
              exfalso
              rw [hl] at hokr
              exact absurd hokr (by simp [PyResult.isOk])
          | ok st3 w3 tr3 r3 =>
              have hst3 : m = st3 := by
                have h3 := m.linkAll_state rest w2
                rw [hl] at h3
                exact h3.symm
              subst hst3
              rw [hl] at hfmr hcmdr hwr
              simp only [PyResult.trace, PyResult.world] at hfmr hcmdr hwr
              have hT : ((PyResult.ok m w [Ev.linkBinaryCall a.name] ()).bind
                    fun m₁ w₁ _ => (m₁.link_binary w₁ a).bind
                      fun m₂ w₂ _ => m₂.linkAll w₂ rest) =
                  .ok m w3 (Ev.linkBinaryCall a.name :: (tr2 ++ tr3)) r3 := by
                simp [PyResult.bind, h2, hl]
              rw [hT]
              have h4 : tr2.filterMap evLinkCallName = [] :=
                List.filterMap_eq_nil_iff.mpr (fun e he => (htr2 e he).2)
              refine ⟨rfl, ?_, ?_, ?_⟩
              · simp [PyResult.trace, List.filterMap_append, evLinkCallName,
                  h4, hfmr]
              · intro e he
                simp only [PyResult.trace, List.mem_cons, List.mem_append] at he
                rcases he with rfl | he | he
                · rfl
                · exact (htr2 e he).1
                · exact hcmdr e he
              · simp only [PyResult.world]
                rw [hwr, hw2]

/-- C3: once `ensure_available` has succeeded (the manager is Ready), any
further `ensure_available` call is a no-op for both variants: it returns
success, raises nothing, issues no command, and leaves the manager state and
the world unchanged. -/
theorem c3_ensure_available_idempotent :
    (∀ (m m' : Homebrew) (w w' : World) (tr : List Ev),
      Homebrew.ensure_available m w = .ok m' w' tr true →
      Homebrew.ensure_available m' w' = .ok m' w' [] true) ∧
    (∀ (m m' : Miniforge) (w w' : World) (tr : List Ev),
      Miniforge.ensure_available m w = .ok m' w' tr true →
      Miniforge.ensure_available m' w' = .ok m' w' [] true) := by
  constructor
  · intro m m' w w' tr h
    unfold Homebrew.ensure_available at h ⊢
    split at h
    · rename_i hb
      injection h with h1 h2 h3 h4
      subst h1; subst h2
      rw [if_pos hb]
    · unfold Homebrew.installPackageManager at h
      split at h
      · exact PyResult.noConfusion h
      · split at h
        · exact PyResult.noConfusion h
        · dsimp only at h
          split at h
          · exact PyResult.noConfusion h
          · injection h with h1 h2 h3 h4
            subst h1; subst h2
            rfl
  · intro m m' w w' tr h
    unfold Miniforge.ensure_available at h ⊢
    split at h
    · rename_i hb
      injection h with h1 h2 h3 h4
      subst h1; subst h2
      dsimp only
      rw [if_pos hb]
    · unfold Miniforge.findInDirs at h
      split at h
      · rename_i hd1
        injection h with h1 h2 h3 h4
        subst h1; subst h2
        dsimp only
        rw [if_pos hd1]
      · unfold Miniforge.findInDirs at h
        split at h
        · rename_i hd2
          injection h with h1 h2 h3 h4
          subst h1; subst h2
          dsimp only
          rw [if_pos hd2]
        · unfold Miniforge.findInDirs at h
          unfold Miniforge.installPackageManager at h
          split at h
          · exact PyResult.noConfusion h
          · split at h
            · exact PyResult.noConfusion h
            · split at h
              · exact PyResult.noConfusion h
              · split at h
                · exact PyResult.noConfusion h
                · dsimp only at h
                  split at h
                  · exact PyResult.noConfusion h
                  · injection h with h1 h2 h3 h4
                    subst h1; subst h2
                    simp

theorem c3_ensure_available_idempotent_witness :
    (Homebrew.ensure_available hbNotReady wBrewOnPath =
      .ok hbReady wBrewOnPath [] true ∧
     Homebrew.ensure_available hbReady wBrewOnPath =
      .ok hbReady wBrewOnPath [] true) ∧
    (Miniforge.ensure_available mfNotReadyCustom wCustomMamba =
      .ok mfReadyCustom wCustomMamba [] true ∧
     Miniforge.ensure_available mfReadyCustom wCustomMamba =
      .ok mfReadyCustom wCustomMamba [] true) :=
  ⟨⟨rfl,
    c3_ensure_available_idempotent.1 hbNotReady hbReady wBrewOnPath wBrewOnPath
      [] rfl⟩,
   ⟨rfl,
    c3_ensure_available_idempotent.2 mfNotReadyCustom mfReadyCustom
      wCustomMamba wCustomMamba [] rfl⟩⟩

/-- C10: whenever the user-space manager's `ensure_available` returns
normally, the recorded tool binary path is present (`bin_path` is not
`None`); and with a present `bin_path`, `_link_binary` never fails — in
particular it never hits the `bin_path.parent` dereference of an absent
path. -/
theorem c10_bin_path_invariant :
    (∀ (m m' : Miniforge) (w w' : World) (tr : List Ev) (r : Bool),
      Miniforge.ensure_available m w = .ok m' w' tr r →
      m'.bin_path.isSome = true) ∧
    (∀ (m : Miniforge) (w : World) (a : App) (bp : Path),
      m.bin_path = some bp →
      (Miniforge.link_binary m w a).isOk = true) := by
  constructor
  · intro m m' w w' tr r h
    unfold Miniforge.ensure_available at h
    split at h
    · rename_i hb
      injection h with h1 h2 h3 h4
      subst h1
      cases hbp : m.bin_path with
      | none => rw [hbp] at hb; exact absurd hb (by simp)
      | some p => simp [hbp]
    · unfold Miniforge.findInDirs at h
      split at h
      · injection h with h1 h2 h3 h4
        subst h1; rfl
      · unfold Miniforge.findInDirs at h
        split at h
        · injection h with h1 h2 h3 h4
          subst h1; rfl
        · unfold Miniforge.findInDirs at h
          unfold Miniforge.installPackageManager at h
          split at h
          · exact PyResult.noConfusion h
          · split at h
            · exact PyResult.noConfusion h
            · split at h
              · exact PyResult.noConfusion h
              · split at h
                · exact PyResult.noConfusion h
                · dsimp only at h
                  split at h
                  · exact PyResult.noConfusion h
                  · injection h with h1 h2 h3 h4
                    subst h1; rfl
  · intro m w a bp hbp
    show (m.linkBinaryAux w a.commands).isOk = true
    induction a.commands generalizing w with
    | nil => rfl
    | cons c rest ih =>
        unfold Miniforge.linkBinaryAux
        rw [hbp]
        dsimp only
        split
        · rfl
        · split
          · rfl
          · split
            · rw [PyResult.isOk_bind_ok]
              exact ih _
            · exact ih w

theorem c10_bin_path_invariant_witness :
    (Miniforge.ensure_available mfNotReadyCustom wCustomMamba =
      .ok mfReadyCustom wCustomMamba [] true ∧
     mfReadyCustom.bin_path.isSome = true) ∧
    (mfReadyCustom.bin_path = some ["custom", "bin", "mamba"] ∧
     (Miniforge.link_binary mfReadyCustom worldBase
        (App.make (fun _ => none) "htop")).isOk = true) :=
  ⟨⟨rfl,
    c10_bin_path_invariant.1 mfNotReadyCustom mfReadyCustom wCustomMamba
      wCustomMamba [] true rfl⟩,
   ⟨rfl,
    c10_bin_path_invariant.2 mfReadyCustom worldBase
      (App.make (fun _ => none) "htop") ["custom", "bin", "mamba"] rfl⟩⟩

/-- C7: on a Ready user-space manager with a recorded binary path, and with
the creation and batch-install commands succeeding, `install_package` first
issues the environment-existence query, issues the environment-creation
command exactly when the environment is absent (and the environment exists
afterwards, so a repeat call skips creation), then issues exactly one batch
install command naming every app, then calls `_link_binary` on every app of
the list in list order (the link phase issues no further external command). -/
theorem c7_install_package_sequence (m : Miniforge) (w : World)
    (pkgs : List App) (force : Bool) (bp : Path)
    (hready : m.is_installed = true) (hbp : m.bin_path = some bp)
    (_hne : pkgs ≠ [])
    (hcreate : w.cmdOk Cmd.mambaCreateEnv = true)
    (hinst : w.cmdOk (Cmd.mambaInstall (pkgs.map fun a => a.name) force)
      = true) :
    m.install_package w pkgs force =
      .ok m (midLink m w pkgs).world
        (Ev.cmd Cmd.mambaEnvList ::
          ((if w.envListHasApps then [] else [Ev.cmd Cmd.mambaCreateEnv]) ++
            (Ev.cmd (Cmd.mambaInstall (pkgs.map fun a => a.name) force) ::
              (midLink m w pkgs).trace))) () ∧
    ((midLink m w pkgs).trace).filterMap evLinkCallName
      = pkgs.map (fun a => a.name) ∧
    (∀ e ∈ (midLink m w pkgs).trace, Ev.isCmd e = false) ∧
    (midLink m w pkgs).world.envListHasApps = true := by
  obtain ⟨hok, hfm, hcm, hwe⟩ := m.linkAll_props bp hbp pkgs
    (if w.envListHasApps then w else { w with envListHasApps := true })
  refine ⟨?_, hfm, hcm, ?_⟩
  · cases hl : m.linkAll
        (if w.envListHasApps then w else { w with envListHasApps := true })
        pkgs with
    | err e3 st3 w3 tr3 =>
        rw [hl] at hok
        exact absurd hok (by simp [PyResult.isOk])
    | ok st3 w3 tr3 r3 =>
        have hst3 : m = st3 := by
          have h3 := m.linkAll_state pkgs
            (if w.envListHasApps then w else { w with envListHasApps := true })
          rw [hl] at h3
          exact h3.symm
        subst hst3
        have hmid : midLink m w pkgs = PyResult.ok m w3 tr3 r3 := hl
        rw [hmid]
        dsimp only [PyResult.world, PyResult.trace]
        cases henv : w.envListHasApps with
        | true =>
            rw [henv] at hl
            simp only [if_true] at hl
            simp [Miniforge.install_package, Miniforge.check_env_exists,
              hready, henv, hinst, PyResult.bind, hl]
        | false =>
            rw [henv] at hl
            simp only [Bool.false_eq_true, if_false] at hl
            simp [Miniforge.install_package, Miniforge.check_env_exists,
              Miniforge.create_env, hready, henv, hcreate, hinst,
              PyResult.bind, hl]
  · show (m.linkAll
        (if w.envListHasApps then w else { w with envListHasApps := true })
        pkgs).world.envListHasApps = true
    rw [hwe]
    cases henv : w.envListHasApps <;> simp [henv]

theorem c7_install_package_sequence_witness :
    mfReadyCustom.is_installed = true ∧
    mfReadyCustom.bin_path = some ["custom", "bin", "mamba"] ∧
    pkgsHtop ≠ [] ∧
    worldBase.cmdOk Cmd.mambaCreateEnv = true ∧
    worldBase.cmdOk (Cmd.mambaInstall (pkgsHtop.map fun a => a.name) false)
      = true ∧
    (Miniforge.install_package mfReadyCustom worldBase pkgsHtop false =
      .ok mfReadyCustom (midLink mfReadyCustom worldBase pkgsHtop).world
        (Ev.cmd Cmd.mambaEnvList ::
          ((if worldBase.envListHasApps then []
            else [Ev.cmd Cmd.mambaCreateEnv]) ++
            (Ev.cmd (Cmd.mambaInstall (pkgsHtop.map fun a => a.name) false) ::
              (midLink mfReadyCustom worldBase pkgsHtop).trace))) () ∧
     ((midLink mfReadyCustom worldBase pkgsHtop).trace).filterMap
        evLinkCallName = pkgsHtop.map (fun a => a.name) ∧
     (∀ e ∈ (midLink mfReadyCustom worldBase pkgsHtop).trace,
        Ev.isCmd e = false) ∧
     (midLink mfReadyCustom worldBase pkgsHtop).world.envListHasApps = true) :=
  ⟨rfl, rfl, List.cons_ne_nil _ _, rfl, rfl,
   c7_install_package_sequence mfReadyCustom worldBase pkgsHtop false
     ["custom", "bin", "mamba"] rfl rfl (List.cons_ne_nil _ _) rfl rfl⟩

/-- C2 (code bug): `_link_binary` executes `return`, not `continue`, when a
target link already exists or a source binary is missing, so it stops
processing the app's remaining command names.  Concretely: for an app with
commands `["a", "b"]` where the link for `a` already exists and the source
binary for `b` exists with no link yet, the source returns at `a` with no
event and no world change, leaving `b` unlinked — while the per-binary skip
the specification describes (`linkBinarySpecAux`) would continue and link
`b`. -/
theorem c2_link_binary_early_return :
    Miniforge.link_binary mfReadyCustom wC2 ⟨"abtool", ["a", "b"]⟩ =
      .ok mfReadyCustom wC2 [] () ∧
    wC2.pathExists ["custom", "envs", "apps", "bin", "b"] = true ∧
    wC2.pathExists (ctxBase.local_bin ++ ["b"]) = false ∧
    (Miniforge.link_binary_spec mfReadyCustom wC2 ⟨"abtool", ["a", "b"]⟩).trace
      = [Ev.symlink (ctxBase.local_bin ++ ["b"])
          ["custom", "envs", "apps", "bin", "b"]] ∧
    (Miniforge.link_binary_spec mfReadyCustom wC2
        ⟨"abtool", ["a", "b"]⟩).world.pathExists (ctxBase.local_bin ++ ["b"])
      = true :=
  ⟨rfl, rfl, rfl, rfl, rfl⟩

end Bootstrap
